import Mathlib

/-!
Shallow embedding of `salt/overstate.py` (class `OverState`): stage
orchestration with requisite resolution.  Python dicts are modelled as
association lists with in-place-replace insertion, the generator protocol
as fully materialised event lists threaded with the mutable `over_run`
state, and Python exceptions as an explicit error component that aborts
the remainder of a computation.
-/

namespace Overstate

/-- Python exceptions that the modelled code can raise. -/
inductive PyErr
  | indexError
  | keyError
  | typeError
  | recursionError
deriving DecidableEq, Repr

/-! ### Python dicts as association lists -/

/-- `d[k]` as a total lookup returning `Option`. -/
def lookupA {α : Type} : List (String × α) → String → Option α
  | [], _ => none
  | (k', v') :: rest, k => if k' = k then some v' else lookupA rest k

/-- `d[k] = v`: replace the first binding of `k` in place, else append. -/
def insertA {α : Type} : List (String × α) → String → α → List (String × α)
  | [], k, v => [(k, v)]
  | (k', v') :: rest, k, v =>
      if k' = k then (k, v) :: rest else (k', v') :: insertA rest k v

/-- The keys of a dict, in binding order. -/
def keysA {α : Type} (l : List (String × α)) : List String := l.map Prod.fst

/-- `d.update(d2)`: fold every binding of `d2` into `d`. -/
def updateA {α : Type} (l l2 : List (String × α)) : List (String × α) :=
  l2.foldl (fun acc kv => insertA acc kv.1 kv.2) l

/-! ### Data model -/

/-- The value stored under the `'ret'` key of a per-minion record: either an
opaque payload handed back by the dispatch boundary, or the structured
dict synthesized for a requisite failure
(`result`, `comment`, `name`, `__run_num__`; `changes` is always `{}`). -/
inductive RetVal
  | ext (v : Nat)
  | failRet (result : Bool) (comment : String) (nm : String) (runNum : Nat)
deriving DecidableEq, Repr

/-- One per-minion entry of an outcome recorded in `over_run`:
keys `'ret'`, `'fun'`, `'retcode'`, `'success'`. -/
structure RunEntry where
  ret : RetVal
  fn : String
  retcode : Nat
  success : Bool
deriving DecidableEq, Repr

/-- The value recorded in `over_run` for one stage: minion id → entry. -/
abbrev Outcome := List (String × RunEntry)

/-- `self.over_run`: stage name → outcome. -/
abbrev OverRun := List (String × Outcome)

/-- The value of a stage's `'match'` key: a string or a list of strings. -/
inductive MatchExpr
  | str (s : String)
  | list (l : List String)
deriving DecidableEq, Repr

/-- Positional argument payloads carried to dispatch:
`()`, the `(','.join(sls), env)` pair, or the opaque value found in a
function dict. -/
inductive Args
  | noArgs
  | slsArgs (joined env : String)
  | raw (v : Nat)
deriving DecidableEq, Repr

/-- The dynamic value of `stage.get('function', stage.get('fun'))`:
`None`, a string, a dict, or some other object (with its truthiness). -/
inductive PyFun
  | pynone
  | pystr (s : String)
  | pydict (l : List (String × Args))
  | pyother (truthy : Bool)
deriving DecidableEq, Repr

/-- Python truthiness test `not fun_d` (negated). -/
def pyFalsy : PyFun → Bool
  | .pynone => true
  | .pystr s => s = ""
  | .pydict l => l.isEmpty
  | .pyother t => !t

/-- A stage body: the keys the code reads (`match`, `sls`,
`function`/`fun` merged through the `get` chain, `require`, `batch`). -/
structure Stage where
  smatch : Option MatchExpr := none
  sls : Option (List String) := none
  func : Option PyFun := none
  require : Option (List String) := none
  batch : Option Nat := none
deriving DecidableEq, Repr

/-- `self.over`: the sorted list of single-key dicts `{name: stage}`. -/
abbrev Defn := List (String × Stage)

/-- `self._names()`: the stage names of the definition. -/
def namesOf (defn : Defn) : List String := defn.map Prod.fst

/-- `self.get_stage(name)`: first component whose dict holds `name`. -/
def get_stage (defn : Defn) (nm : String) : Option (String × Stage) :=
  defn.find? (fun c => c.1 = nm)

/-- A raw per-minion record from `local.cmd_iter` / `cmd_batch`
(each key may be absent). -/
structure RawRecord where
  rid : Option String := none
  rret : Option RetVal := none
  rfn : Option String := none
  rretcode : Option Nat := none
  rsuccess : Option Bool := none
deriving DecidableEq, Repr

/-- The external collaborators: `salt.utils.check_state_result` applied to
the singleton dict `{minion: ret}`, the `test.ping` target resolution used
by `_stage_list`, and the remote dispatch itself. -/
structure World where
  checkStateResult : String → RetVal → Bool
  stageListOf : String → List String
  dispatch : List String → String → Args → Option Nat → List RawRecord

/-- `' or '.join(match)` when the match expression is a list. -/
def matchToStr : MatchExpr → String
  | .str s => s
  | .list l => String.intercalate " or " l

/-- `self._stage_list(match)`. -/
def stage_list (w : World) (m : MatchExpr) : List String :=
  w.stageListOf (matchToStr m)

/-- `self.verify_stage(stage)`: the stage itself, or a list of errors. -/
def verify_stage (stage : Stage) : Sum (List String) Stage :=
  let errors : List String :=
    if stage.smatch.isNone then ["No \"match\" argument in stage."] else []
  if errors.isEmpty then Sum.inr stage else Sum.inl errors

/-! ### The `call_stage` generator -/

/-- One node of the value stream a `call_stage` generator produces:
`{name: outcome}` dicts, `{rname: errors}` validation dicts, and nested
sub-generators (recorded here with their fully driven event list). -/
inductive Event
  | out (nm : String) (o : Outcome)
  | errs (nm : String) (es : List String)
  | nested (evs : List Event)

/-- The sentinel key of an unsatisfied-requisite failure record. -/
def reqFailTag : String := "req_|-fail_|-fail_|-None"

/-- The sentinel key of a missing-requisite failure record. -/
def noReqTag : String := "No_|-Req_|-fail_|-None"

/-- The per-minion entry of the retcode-254 failure synthesized when a
resolved requisite is unsatisfied. -/
def mkReqFail (req minion : String) : RunEntry :=
  { ret := .failRet false
      ("Requisite " ++ req ++ " failed for stage on minion " ++ minion)
      "Requisite Failure" 0
    fn := "req.fail", retcode := 254, success := false }

/-- The per-minion entry of the retcode-253 failure synthesized when a
requisite name is not defined. -/
def mkNoReq (req : String) : RunEntry :=
  { ret := .failRet false ("Requisite " ++ req ++ " not found")
      "Requisite Failure" 0
    fn := "req.fail", retcode := 253, success := false }

/-- The outcome of the `fun`/`arg` prelude of `call_stage`: function name,
arguments, events yielded so far, and a possible exception (the
`fun_d.keys()[0]` IndexError on an empty function dict). -/
structure StagePre where
  fn : String
  arg : Args
  evs : List Event
  err : Option PyErr

/-- Lines 115–132 of `call_stage`: pick the work form.  A falsy function
spec yields `{name: {}}` but — lacking a `return` — execution continues;
a non-str non-dict spec yields `{name: {}}` again from the `else` arm. -/
def stagePre (env name : String) (stage : Stage) : StagePre :=
  match stage.sls with
  | some l => ⟨"state.sls", .slsArgs (String.intercalate "," l) env, [], none⟩
  | none =>
    match stage.func with
    | none => ⟨"state.highstate", .noArgs, [], none⟩
    | some fd =>
      let evs0 : List Event := if pyFalsy fd then [.out name []] else []
      match fd with
      | .pystr s => ⟨s, .noArgs, evs0, none⟩
      | .pydict [] => ⟨"state.highstate", .noArgs, evs0, some .indexError⟩
      | .pydict ((k, a) :: _) => ⟨k, a, evs0, none⟩
      | .pynone => ⟨"state.highstate", .noArgs, evs0 ++ [.out name []], none⟩
      | .pyother _ =>
          ⟨"state.highstate", .noArgs, evs0 ++ [.out name []], none⟩

/-- The satisfaction check applied to one minion of a resolved requisite
(lines 138–150): state forms go through `check_state_result` on the
singleton `{minion: ret}`, the plain function form needs
`retcode == 0 and success`. -/
def reqMinionOk (w : World) (minion : String) (e : RunEntry) : Bool :=
  if e.fn = "state.highstate" then w.checkStateResult minion e.ret
  else if e.fn = "state.sls" then w.checkStateResult minion e.ret
  else decide (e.retcode = 0) && e.success

/-- Mutable state threaded through the requisite loop of `call_stage`. -/
structure LoopSt where
  run : OverRun
  reqFail : Outcome
  events : List Event
  dispatched : List String
  writes : List String
  err : Option PyErr

/-- The `req in self.over_run` arm (lines 136–166): iterate the cached
outcome's minions in order; per failing minion, assign the synthesized
failure to `over_run[name]` and merge it into `req_fail[name]`. -/
def checkCached (w : World) (name req : String) :
    Outcome → LoopSt → LoopSt
  | [], st => st
  | mv :: rest, st =>
    if reqMinionOk w mv.1 mv.2 then checkCached w name req rest st
    else
      let failure : Outcome := [(reqFailTag, mkReqFail req mv.1)]
      checkCached w name req rest
        { st with run := insertA st.run name failure,
                  writes := st.writes ++ [name],
                  reqFail := updateA st.reqFail failure }

/-- The result of fully driving one `call_stage` generator: the events it
yielded (in order), the final `over_run`, which stages were dispatched,
every assignment made to `over_run`, whether the stage's own work was
dispatched, the final `req_fail[name]`, and a possible exception. -/
structure CallRes where
  events : List Event
  run : OverRun
  dispatched : List String
  writes : List String
  ownDispatched : Bool
  reqFailN : Outcome
  err : Option PyErr

/-- Folding a recursively driven sub-generator (`yield
self.call_stage(rname, rstage)`, fully consumed by the caller) into the
loop state: its events nest, its state changes land in `over_run`. -/
def recLift (rec : String → Stage → OverRun → CallRes)
    (rname : String) (rstage : Stage) (st : LoopSt) : LoopSt :=
  let sub := rec rname rstage st.run
  { run := sub.run,
    reqFail := st.reqFail,
    events := st.events ++ [.nested sub.events],
    dispatched := st.dispatched ++ sub.dispatched,
    writes := st.writes ++ sub.writes,
    err := sub.err }

/-- One iteration of `for req in stage['require']` (lines 134–193).
`rec` is the recursive resolution used for a known, unresolved requisite;
a pending exception skips the body (the generator is already dead). -/
def reqStep (rec : String → Stage → OverRun → CallRes)
    (w : World) (defn : Defn) (name req : String) (st : LoopSt) : LoopSt :=
  if st.err.isSome then st
  else
    match lookupA st.run req with
    | some outcome => checkCached w name req outcome st
    | none =>
      if ¬ (namesOf defn).contains req then
        let failure : Outcome := [(noReqTag, mkNoReq req)]
        { st with run := insertA st.run name failure,
                  writes := st.writes ++ [name],
                  reqFail := updateA st.reqFail failure }
      else
        defn.foldl (fun st comp =>
          if st.err.isSome then st
          else if comp.1 = req then
            match verify_stage comp.2 with
            | .inl errors =>
                { st with events := st.events ++ [.errs req errors] }
            | .inr rstage => recLift rec req rstage st
          else st) st

/-- The whole `for req in stage['require']` loop, a no-op when the stage
declares no requisites. -/
def reqLoop (rec : String → Stage → OverRun → CallRes)
    (w : World) (defn : Defn) (name : String) (stage : Stage)
    (st0 : LoopSt) : LoopSt :=
  match stage.require with
  | none => st0
  | some reqs => reqs.foldl (fun st req => reqStep rec w defn name req st) st0

/-- Lines 210–220: fold the adapter's raw records into a Result, skipping
records that carry none of `'id'`, `'return'`, `'fun'`; any other record
is read at all three keys directly (KeyError when one is absent), with
defaults only for `'retcode'` (0) and `'success'` (True). -/
def foldRecord (ret : Outcome) (m : RawRecord) : Except PyErr Outcome :=
  if m.rid.isNone ∧ m.rret.isNone ∧ m.rfn.isNone then Except.ok ret
  else
    match m.rid, m.rret, m.rfn with
    | some i, some r, some f =>
        Except.ok (insertA ret i
          { ret := r, fn := f, retcode := m.rretcode.getD 0,
            success := m.rsuccess.getD true })
    | _, _, _ => Except.error PyErr.keyError

/-- The whole folding loop over the adapter's record stream. -/
def foldRecords : Outcome → List RawRecord → Except PyErr Outcome
  | ret, [] => Except.ok ret
  | ret, m :: rest =>
    match foldRecord ret m with
    | Except.ok r => foldRecords r rest
    | Except.error e => Except.error e

/-- Lines 194–222: after the requisite loop, either yield the non-empty
`req_fail` dict, or dispatch the stage's own work (reading
`stage['match']`, selecting `cmd_batch` or `cmd_iter`, folding the
record stream, recording the result, and yielding it).  A pending
exception from the loop just propagates. -/
def finishStage (w : World) (name : String) (stage : Stage)
    (p : StagePre) (st1 : LoopSt) : CallRes :=
  if st1.err.isSome then
    { events := st1.events, run := st1.run, dispatched := st1.dispatched,
      writes := st1.writes, ownDispatched := false,
      reqFailN := st1.reqFail, err := st1.err }
  else if ¬ st1.reqFail.isEmpty then
    { events := st1.events ++ [.out name st1.reqFail], run := st1.run,
      dispatched := st1.dispatched, writes := st1.writes,
      ownDispatched := false, reqFailN := st1.reqFail, err := none }
  else
    match stage.smatch with
    | none =>
      { events := st1.events, run := st1.run, dispatched := st1.dispatched,
        writes := st1.writes, ownDispatched := false,
        reqFailN := st1.reqFail, err := some .keyError }
    | some m =>
      let tgt := stage_list w m
      let records := w.dispatch tgt p.fn p.arg stage.batch
      match foldRecords [] records with
      | Except.error e =>
        { events := st1.events, run := st1.run,
          dispatched := st1.dispatched ++ [name], writes := st1.writes,
          ownDispatched := true, reqFailN := st1.reqFail, err := some e }
      | Except.ok ret =>
        { events := st1.events ++ [.out name ret],
          run := insertA st1.run name ret,
          dispatched := st1.dispatched ++ [name],
          writes := st1.writes ++ [name],
          ownDispatched := true, reqFailN := st1.reqFail, err := none }

/-- The loop state as it stands when the requisite loop begins. -/
def initSt (run : OverRun) (p : StagePre) : LoopSt :=
  { run := run, reqFail := [], events := p.evs,
    dispatched := [], writes := [], err := p.err }

/-- The body of `call_stage` (lines 111–222) given the recursive
resolution `rec` used for not-yet-resolved requisites.  Driving the
generator to completion: prelude, requisite loop, then `finishStage`. -/
def callStageBody (w : World) (defn : Defn) (env : String)
    (rec : String → Stage → OverRun → CallRes)
    (name : String) (stage : Stage) (run : OverRun) : CallRes :=
  let p := stagePre env name stage
  finishStage w name stage p
    (reqLoop rec w defn name stage (initSt run p))

/-- `call_stage`, fully driven, with a recursion bound: the unguarded
recursion of the original on a requisite cycle is a Python
RecursionError, modelled by exhausting the bound. -/
def call_stage (w : World) (defn : Defn) (env : String) :
    Nat → String → Stage → OverRun → CallRes
  | 0 => fun _ _ run =>
    { events := [], run := run, dispatched := [], writes := [],
      ownDispatched := false, reqFailN := [],
      err := some PyErr.recursionError }
  | Nat.succ fuel => callStageBody w defn env (call_stage w defn env fuel)

/-! ### The eager driver `stages` -/

/-- Lines 224–233: `stages` resets `over_run` and loops over the
definition.  `self.call_stage(name, stage)` only constructs a generator
object; the statement discards it and never iterates it, so no body code
of `call_stage` ever executes and `over_run` is never written. -/
def stages (_w : World) (defn : Defn) (_env : String) : OverRun :=
  defn.foldl (fun over_run comp =>
      if (lookupA over_run comp.1).isSome then over_run
      else over_run)
    ([] : OverRun)

/-! ### The streaming driver `stages_iter` -/

/-- A node yielded by the inner `yielder` walk: the single-key dict
`{sname: outcome}` or `{sname: errors}`. -/
abbrev FlatNode := String × Sum Outcome (List String)

mutual

/-- `yielder(gen_ret)` on one node: dicts and lists are yielded as-is,
generators are recursed into. -/
def Event.flatten : Event → List FlatNode
  | .out n o => [(n, Sum.inl o)]
  | .errs n es => [(n, Sum.inr es)]
  | .nested l => flattenList l

/-- `yielder` over a whole produced sequence, in order. -/
def flattenList : List Event → List FlatNode
  | [] => []
  | e :: rest => e.flatten ++ flattenList rest

end

/-- An item yielded by `stages_iter`: the initial full definition, a
`[stage]` reference (`[comp]` or `[self.get_stage(sname)]`), a
validation-error list, or a `final` dict of bare per-minion `'ret'`
values. -/
inductive StreamItem
  | plan (d : Defn)
  | stageRef (c : Option (String × Stage))
  | errList (es : List String)
  | final (m : List (String × RetVal))
deriving DecidableEq, Repr

/-- Lines 262–267 applied to one flattened node: yield
`[self.get_stage(sname)]`, then build `final` by reading
`yret[sname][minion]['ret']`.  When the node's payload is a non-empty
error list, `for minion in yret[sname]` iterates the strings and indexing
the list with a string raises TypeError. -/
def emitNode (defn : Defn) : FlatNode → List StreamItem × Option PyErr
  | (sname, Sum.inl o) =>
      ([.stageRef (get_stage defn sname),
        .final (o.map (fun mv => (mv.1, mv.2.ret)))], none)
  | (sname, Sum.inr es) =>
      if es.isEmpty then ([.stageRef (get_stage defn sname), .final []], none)
      else ([.stageRef (get_stage defn sname)], some PyErr.typeError)

/-- `emitNode` over a flattened sequence; an exception stops emission. -/
def emitNodes (defn : Defn) : List FlatNode → List StreamItem × Option PyErr
  | [] => ([], none)
  | n :: rest =>
    match emitNode defn n with
    | (items, some e) => (items, some e)
    | (items, none) =>
      let (items2, err) := emitNodes defn rest
      (items ++ items2, err)

/-- The state of the streaming driver as its output is consumed. -/
structure IterRes where
  items : List StreamItem
  run : OverRun
  writes : List String
  err : Option PyErr

/-- One iteration of the `for comp in self.over` loop of `stages_iter`
(lines 251–267): skip already-resolved names, surface validation errors,
otherwise drive `call_stage` through `yielder` and emit each flattened
node.  A pending exception ends the stream. -/
def iterStep (w : World) (defn : Defn) (env : String) (fuel : Nat)
    (acc : IterRes) (comp : String × Stage) : IterRes :=
  if acc.err.isSome then acc
  else if (lookupA acc.run comp.1).isSome then acc
  else
    match verify_stage comp.2 with
    | .inl errors =>
        { acc with items := acc.items ++ [.stageRef (some comp), .errList errors] }
    | .inr _ =>
      let res := call_stage w defn env fuel comp.1 comp.2 acc.run
      let (emitted, eErr) := emitNodes defn (flattenList res.events)
      { items := acc.items ++ emitted,
        run := res.run,
        writes := acc.writes ++ res.writes,
        err := match eErr with
               | some e => some e
               | none => res.err }

/-- Lines 235–267: `stages_iter` resets `over_run`, yields the full
definition, then processes every component in order. -/
def stages_iter (w : World) (defn : Defn) (env : String) (fuel : Nat) :
    IterRes :=
  defn.foldl (iterStep w defn env fuel)
    { items := [.plan defn], run := [], writes := [], err := none }

/-! ### Dictionary lemmas -/

theorem lookupA_insertA_self {α : Type} (l : List (String × α)) (k : String)
    (v : α) : lookupA (insertA l k v) k = some v := by
  induction l with
  | nil => simp [insertA, lookupA]
  | cons hd tl ih =>
    by_cases h : hd.1 = k
    · simp [insertA, h, lookupA]
    · simp [insertA, h, lookupA, ih]

theorem lookupA_insertA_ne {α : Type} (l : List (String × α)) (k k' : String)
    (v : α) (h : k' ≠ k) : lookupA (insertA l k v) k' = lookupA l k' := by
  have h' : k ≠ k' := Ne.symm h
  induction l with
  | nil => simp [insertA, lookupA, h']
  | cons hd tl ih =>
    by_cases hh : hd.1 = k
    · simp [insertA, hh, lookupA, h']
    · simp [insertA, hh, lookupA, ih]

theorem insertA_insertA {α : Type} (l : List (String × α)) (k : String)
    (v v' : α) : insertA (insertA l k v) k v' = insertA l k v' := by
  induction l with
  | nil => simp [insertA]
  | cons hd tl ih =>
    by_cases h : hd.1 = k
    · simp [insertA, h]
    · simp [insertA, h, ih]

theorem lookupA_isSome_iff_mem {α : Type} (l : List (String × α))
    (k : String) : (lookupA l k).isSome = true ↔ k ∈ keysA l := by
  induction l with
  | nil => simp [lookupA, keysA]
  | cons hd tl ih =>
    by_cases h : hd.1 = k
    · simp [lookupA, h, keysA]
    · simp only [lookupA, if_neg h, keysA, List.map_cons, List.mem_cons]
      rw [ih]
      constructor
      · exact fun hm => Or.inr hm
      · rintro (rfl | hm)
        · exact absurd rfl h
        · exact hm

theorem mem_keysA_insertA {α : Type} (l : List (String × α)) (k a : String)
    (v : α) : a ∈ keysA (insertA l k v) ↔ a ∈ keysA l ∨ a = k := by
  by_cases h : a = k
  · subst h
    constructor
    · intro _
      exact Or.inr rfl
    · intro _
      rw [← lookupA_isSome_iff_mem, lookupA_insertA_self]
      rfl
  · rw [← lookupA_isSome_iff_mem, lookupA_insertA_ne l k a v h,
      lookupA_isSome_iff_mem]
    simp [h]

theorem keysA_insertA_nodup {α : Type} (l : List (String × α)) (k : String)
    (v : α) (h : (keysA l).Nodup) : (keysA (insertA l k v)).Nodup := by
  induction l with
  | nil => simp [insertA, keysA]
  | cons hd tl ih =>
    simp only [keysA, List.map_cons, List.nodup_cons] at h
    by_cases hh : hd.1 = k
    · have he : insertA (hd :: tl) k v = (k, v) :: tl := by
        simp [insertA, hh]
      rw [he]
      simp only [keysA, List.map_cons, List.nodup_cons]
      exact ⟨hh ▸ h.1, h.2⟩
    · have he : insertA (hd :: tl) k v = hd :: insertA tl k v := by
        simp [insertA, hh]
      rw [he]
      simp only [keysA, List.map_cons, List.nodup_cons]
      refine ⟨?_, ih h.2⟩
      intro hc
      rcases (mem_keysA_insertA tl k hd.1 v).mp hc with hc | hc
      · exact h.1 hc
      · exact hh hc

theorem lookupA_eq_none_iff_not_mem {α : Type} (l : List (String × α))
    (k : String) : lookupA l k = none ↔ k ∉ keysA l := by
  rw [← lookupA_isSome_iff_mem]
  cases lookupA l k <;> simp

theorem updateA_singleton {α : Type} (l : List (String × α)) (k : String)
    (v : α) : updateA l [(k, v)] = insertA l k v := rfl

theorem mem_keysA_of_mem {α : Type} {l : List (String × α)}
    {p : String × α} (h : p ∈ l) : p.1 ∈ keysA l :=
  List.mem_map_of_mem Prod.fst h

theorem lookup_unique_of_nodup {α : Type} {l : List (String × α)}
    {k : String} {a b : α} (hnd : (keysA l).Nodup)
    (ha : (k, a) ∈ l) (hb : (k, b) ∈ l) : a = b := by
  induction l with
  | nil => simp at ha
  | cons hd tl ih =>
    simp only [keysA, List.map_cons, List.nodup_cons] at hnd
    rcases List.mem_cons.mp ha with ha' | ha'
    · rcases List.mem_cons.mp hb with hb' | hb'
      · exact (Prod.ext_iff.mp (ha'.trans hb'.symm)).2
      · have hk : hd.1 = k := by rw [← ha']
        exact absurd (hk ▸ mem_keysA_of_mem hb') hnd.1
    · rcases List.mem_cons.mp hb with hb' | hb'
      · have hk : hd.1 = k := by rw [← hb']
        exact absurd (hk ▸ mem_keysA_of_mem ha') hnd.1
      · exact ih hnd.2 ha' hb'

/-! ### Generic fold invariants -/

theorem foldl_pres {α β : Type} {P : β → Prop} {f : β → α → β}
    {l : List α} (h : ∀ st x, x ∈ l → P st → P (f st x)) :
    ∀ st, P st → P (l.foldl f st) := by
  induction l with
  | nil => intro st hst; simpa using hst
  | cons hd tl ih =>
    intro st hst
    simp only [List.foldl_cons]
    exact ih (fun st x hx => h st x (List.mem_cons_of_mem hd hx))
      (f st hd) (h st hd (List.mem_cons_self hd tl) hst)

/-! ### Behaviour of the cached-requisite check -/

theorem checkCached_untouched (w : World) (name req : String) :
    ∀ (o : Outcome) (st : LoopSt),
      (checkCached w name req o st).events = st.events ∧
      (checkCached w name req o st).dispatched = st.dispatched ∧
      (checkCached w name req o st).err = st.err := by
  intro o
  induction o with
  | nil => intro st; exact ⟨rfl, rfl, rfl⟩
  | cons mv rest ih =>
    intro st
    by_cases h : reqMinionOk w mv.1 mv.2
    · simpa [checkCached, h] using ih st
    · simpa [checkCached, h] using ih _

theorem checkCached_all_ok (w : World) (name req : String) :
    ∀ (o : Outcome) (st : LoopSt),
      (∀ p ∈ o, reqMinionOk w p.1 p.2 = true) →
      checkCached w name req o st = st := by
  intro o
  induction o with
  | nil => intro st _; rfl
  | cons mv rest ih =>
    intro st hall
    have hok : reqMinionOk w mv.1 mv.2 = true :=
      hall mv (List.mem_cons_self mv rest)
    simp only [checkCached, hok, if_true]
    exact ih st (fun p hp => hall p (List.mem_cons_of_mem mv hp))

theorem checkCached_ex_fail (w : World) (name req : String) :
    ∀ (o : Outcome) (st : LoopSt),
      (∃ p ∈ o, reqMinionOk w p.1 p.2 = false) →
      ∃ p ∈ o, reqMinionOk w p.1 p.2 = false ∧
        (checkCached w name req o st).run
          = insertA st.run name [(reqFailTag, mkReqFail req p.1)] ∧
        (checkCached w name req o st).reqFail
          = insertA st.reqFail reqFailTag (mkReqFail req p.1) := by
  intro o
  induction o with
  | nil => intro st h; simp at h
  | cons mv rest ih =>
    intro st hex
    by_cases hok : reqMinionOk w mv.1 mv.2 = true
    · have hrest : ∃ p ∈ rest, reqMinionOk w p.1 p.2 = false := by
        rcases hex with ⟨p, hp, hpf⟩
        rcases List.mem_cons.mp hp with rfl | hp'
        · rw [hok] at hpf; cases hpf
        · exact ⟨p, hp', hpf⟩
      have hstep : checkCached w name req (mv :: rest) st
          = checkCached w name req rest st := by
        simp [checkCached, hok]
      rcases ih st hrest with ⟨p, hp, hpf, hrun, hrf⟩
      exact ⟨p, List.mem_cons_of_mem mv hp, hpf,
        by rw [hstep]; exact hrun, by rw [hstep]; exact hrf⟩
    · have hokf : reqMinionOk w mv.1 mv.2 = false := by
        cases h : reqMinionOk w mv.1 mv.2
        · rfl
        · exact absurd h hok
      set st' : LoopSt :=
        { st with
            run := insertA st.run name [(reqFailTag, mkReqFail req mv.1)],
            writes := st.writes ++ [name],
            reqFail := updateA st.reqFail [(reqFailTag, mkReqFail req mv.1)] }
        with hst'
      have hstep : checkCached w name req (mv :: rest) st
          = checkCached w name req rest st' := by
        simp [checkCached, hokf, hst']
      by_cases hrest : ∃ p ∈ rest, reqMinionOk w p.1 p.2 = false
      · rcases ih st' hrest with ⟨p, hp, hpf, hrun, hrf⟩
        refine ⟨p, List.mem_cons_of_mem mv hp, hpf, ?_, ?_⟩
        · rw [hstep, hrun, hst']
          exact insertA_insertA _ _ _ _
        · rw [hstep, hrf, hst']
          simp only [updateA_singleton]
          exact insertA_insertA _ _ _ _
      · have hall : ∀ p ∈ rest, reqMinionOk w p.1 p.2 = true := by
          intro p hp
          cases h : reqMinionOk w p.1 p.2
          · exact absurd ⟨p, hp, h⟩ hrest
          · rfl
        refine ⟨mv, List.mem_cons_self mv rest, hokf, ?_, ?_⟩
        · rw [hstep, checkCached_all_ok w name req rest st' hall, hst']
        · rw [hstep, checkCached_all_ok w name req rest st' hall, hst']
          simp [updateA_singleton]

/-! ### Run-state invariants of `call_stage` -/

/-- Key-set inclusion between run states: nothing is ever removed. -/
def RunLe (a b : OverRun) : Prop := ∀ k, k ∈ keysA a → k ∈ keysA b

theorem RunLe.rfl (a : OverRun) : RunLe a a := fun _ h => h

theorem RunLe.trans {a b c : OverRun} (h1 : RunLe a b) (h2 : RunLe b c) :
    RunLe a c := fun k h => h2 k (h1 k h)

theorem RunLe.insert (a : OverRun) (k : String) (v : Outcome) :
    RunLe a (insertA a k v) :=
  fun k' h => (mem_keysA_insertA a k k' v).mpr (Or.inl h)

theorem RunLe.none_of_none {a b : OverRun} (h : RunLe a b) {k : String}
    (hk : lookupA b k = none) : lookupA a k = none := by
  rw [lookupA_eq_none_iff_not_mem] at hk ⊢
  exact fun hm => hk (h k hm)

/-- `checkCached` only ever replaces the entry under `name`. -/
theorem checkCached_run_inv (w : World) (name req : String) :
    ∀ (o : Outcome) (st : LoopSt),
      RunLe st.run (checkCached w name req o st).run ∧
      ((keysA st.run).Nodup →
        (keysA (checkCached w name req o st).run).Nodup) := by
  intro o
  induction o with
  | nil => intro st; exact ⟨RunLe.rfl _, fun h => h⟩
  | cons mv rest ih =>
    intro st
    by_cases h : reqMinionOk w mv.1 mv.2
    · simpa [checkCached, h] using ih st
    · have hstep : checkCached w name req (mv :: rest) st
          = checkCached w name req rest
              { st with
                  run := insertA st.run name [(reqFailTag, mkReqFail req mv.1)],
                  writes := st.writes ++ [name],
                  reqFail :=
                    updateA st.reqFail [(reqFailTag, mkReqFail req mv.1)] } := by
        simp [checkCached, h]
      rw [hstep]
      rcases ih { st with
          run := insertA st.run name [(reqFailTag, mkReqFail req mv.1)],
          writes := st.writes ++ [name],
          reqFail := updateA st.reqFail [(reqFailTag, mkReqFail req mv.1)] }
        with ⟨hle, hnd⟩
      constructor
      · exact RunLe.trans (RunLe.insert st.run name _) hle
      · intro h0
        exact hnd (keysA_insertA_nodup st.run name _ h0)

/-- `checkCached` leaves every key other than `name` untouched. -/
theorem checkCached_lookup_ne (w : World) (name req n : String)
    (hne : n ≠ name) :
    ∀ (o : Outcome) (st : LoopSt),
      lookupA (checkCached w name req o st).run n = lookupA st.run n := by
  intro o
  induction o with
  | nil => intro st; rfl
  | cons mv rest ih =>
    intro st
    by_cases h : reqMinionOk w mv.1 mv.2
    · simpa [checkCached, h] using ih st
    · have hstep : checkCached w name req (mv :: rest) st
          = checkCached w name req rest
              { st with
                  run := insertA st.run name [(reqFailTag, mkReqFail req mv.1)],
                  writes := st.writes ++ [name],
                  reqFail :=
                    updateA st.reqFail [(reqFailTag, mkReqFail req mv.1)] } := by
        simp [checkCached, h]
      rw [hstep, ih]
      exact lookupA_insertA_ne st.run name n _ hne

/-- `finishStage` either leaves the run state alone or records the
dispatch result under `name`. -/
theorem finishStage_run (w : World) (name : String) (stage : Stage)
    (p : StagePre) (st1 : LoopSt) :
    (finishStage w name stage p st1).run = st1.run ∨
    ∃ ret, (finishStage w name stage p st1).run = insertA st1.run name ret := by
  unfold finishStage
  by_cases h1 : st1.err.isSome
  · simp [h1]
  · by_cases h2 : st1.reqFail.isEmpty
    · simp only [h1, h2, Bool.false_eq_true, if_false, not_true, if_true,
        not_false_iff]
      cases hm : stage.smatch with
      | none => simp
      | some m =>
        simp only []
        cases hfr : foldRecords [] (w.dispatch (stage_list w m) p.fn p.arg stage.batch) with
        | error e => simp [hfr]
        | ok ret => right; exact ⟨ret, by simp [hfr]⟩
    · simp [h1, h2]

/-- Resolution never deletes a run-state entry and keeps its keys
duplicate-free. -/
theorem call_stage_run_inv (w : World) (defn : Defn) (env : String) :
    ∀ (fuel : Nat) (name : String) (stage : Stage) (run : OverRun),
      RunLe run (call_stage w defn env fuel name stage run).run ∧
      ((keysA run).Nodup →
        (keysA (call_stage w defn env fuel name stage run).run).Nodup) := by
  intro fuel
  induction fuel with
  | zero => intro name stage run; exact ⟨RunLe.rfl _, fun h => h⟩
  | succ fuel ih =>
    intro name stage run
    have hP : ∀ st1 : LoopSt,
        (RunLe run st1.run ∧ ((keysA run).Nodup → (keysA st1.run).Nodup)) →
        RunLe run (finishStage w name stage (stagePre env name stage) st1).run ∧
        ((keysA run).Nodup →
          (keysA (finishStage w name stage (stagePre env name stage) st1).run).Nodup) := by
      intro st1 h
      rcases finishStage_run w name stage (stagePre env name stage) st1 with
        he | ⟨ret, he⟩
      · rw [he]; exact h
      · rw [he]
        exact ⟨RunLe.trans h.1 (RunLe.insert st1.run name ret),
          fun h0 => keysA_insertA_nodup st1.run name ret (h.2 h0)⟩
    have hloop : ∀ st0 : LoopSt,
        (RunLe run st0.run ∧ ((keysA run).Nodup → (keysA st0.run).Nodup)) →
        (RunLe run (reqLoop (call_stage w defn env fuel) w defn name stage st0).run ∧
         ((keysA run).Nodup →
          (keysA (reqLoop (call_stage w defn env fuel) w defn name stage st0).run).Nodup)) := by
      intro st0 h0
      unfold reqLoop
      cases stage.require with
      | none => exact h0
      | some reqs =>
        refine foldl_pres
          (P := fun st : LoopSt =>
            RunLe run st.run ∧ ((keysA run).Nodup → (keysA st.run).Nodup))
          ?_ st0 h0
        intro st req _ hst
        unfold reqStep
        by_cases he : st.err.isSome
        · simpa [he] using hst
        · simp only [he, if_false, Bool.false_eq_true]
          cases hl : lookupA st.run req with
          | some outcome =>
            rcases checkCached_run_inv w name req outcome st with ⟨hle, hnd⟩
            exact ⟨RunLe.trans hst.1 hle, fun h0 => hnd (hst.2 h0)⟩
          | none =>
            by_cases hn : ¬ (namesOf defn).contains req
            · simp only [hn, if_true]
              exact ⟨RunLe.trans hst.1 (RunLe.insert st.run name _),
                fun h0 => keysA_insertA_nodup st.run name _ (hst.2 h0)⟩
            · simp only [hn, if_false]
              refine foldl_pres
                (P := fun st : LoopSt =>
                  RunLe run st.run ∧
                    ((keysA run).Nodup → (keysA st.run).Nodup))
                ?_ st hst
              intro st2 comp _ hst2
              by_cases he2 : st2.err.isSome
              · simpa [he2] using hst2
              · by_cases hc : comp.1 = req
                · simp only [he2, hc, if_false, if_true, Bool.false_eq_true]
                  cases hv : verify_stage comp.2 with
                  | inl errors => simpa [he2, hc, hv] using hst2
                  | inr rstage =>
                    simp only [he2, hc, hv, if_false, if_true, Bool.false_eq_true]
                    rcases ih req rstage st2.run with ⟨hle, hnd⟩
                    exact ⟨RunLe.trans hst2.1 hle, fun h0 => hnd (hst2.2 h0)⟩
                · simpa [he2, hc] using hst2
    have hinit : RunLe run (initSt run (stagePre env name stage)).run ∧
        ((keysA run).Nodup → (keysA (initSt run (stagePre env name stage)).run).Nodup) :=
      ⟨RunLe.rfl _, fun h => h⟩
    exact hP _ (hloop _ hinit)

/-- `finishStage` dispatches nothing beyond possibly the stage's own
work. -/
theorem finishStage_dispatched (w : World) (name : String) (stage : Stage)
    (p : StagePre) (st1 : LoopSt) :
    (finishStage w name stage p st1).dispatched = st1.dispatched ∨
    (finishStage w name stage p st1).dispatched = st1.dispatched ++ [name] := by
  unfold finishStage
  by_cases h1 : st1.err.isSome
  · simp [h1]
  · by_cases h2 : st1.reqFail.isEmpty
    · simp only [h1, h2, Bool.false_eq_true, if_false, not_true, if_true,
        not_false_iff]
      cases hm : stage.smatch with
      | none => simp
      | some m =>
        simp only []
        cases hfr : foldRecords [] (w.dispatch (stage_list w m) p.fn p.arg stage.batch) with
        | error e => simp [hfr]
        | ok ret => simp [hfr]
    · simp [h1, h2]

/-- Every stage name dispatched while resolving `name` was either `name`
itself or absent from the run state when resolution began: an
already-recorded stage is never dispatched again. -/
theorem call_stage_dispatched_fresh (w : World) (defn : Defn) (env : String) :
    ∀ (fuel : Nat) (name : String) (stage : Stage) (run : OverRun),
      ∀ n ∈ (call_stage w defn env fuel name stage run).dispatched,
        n = name ∨ lookupA run n = none := by
  intro fuel
  induction fuel with
  | zero =>
    intro name stage run n hn
    simp [call_stage] at hn
  | succ fuel ih =>
    intro name stage run
    have hloop :
        (∀ n ∈ (reqLoop (call_stage w defn env fuel) w defn name stage
            (initSt run (stagePre env name stage))).dispatched,
          n = name ∨ lookupA run n = none) ∧
        RunLe run (reqLoop (call_stage w defn env fuel) w defn name stage
            (initSt run (stagePre env name stage))).run := by
      unfold reqLoop
      cases hr : stage.require with
      | none => exact ⟨by intro n hn; simp [initSt] at hn, RunLe.rfl _⟩
      | some reqs =>
        refine foldl_pres
          (P := fun st : LoopSt =>
            (∀ n ∈ st.dispatched, n = name ∨ lookupA run n = none) ∧
              RunLe run st.run)
          ?_ _ ⟨by intro n hn; simp [initSt] at hn, RunLe.rfl _⟩
        intro st req _ hst
        unfold reqStep
        by_cases he : st.err.isSome
        · simpa [he] using hst
        · simp only [he, if_false, Bool.false_eq_true]
          cases hl : lookupA st.run req with
          | some outcome =>
            rcases checkCached_untouched w name req outcome st with ⟨_, hd, _⟩
            rcases checkCached_run_inv w name req outcome st with ⟨hle, _⟩
            exact ⟨by rw [hd]; exact hst.1, RunLe.trans hst.2 hle⟩
          | none =>
            have hreq0 : lookupA run req = none :=
              RunLe.none_of_none hst.2 hl
            by_cases hn : ¬ (namesOf defn).contains req
            · simp only [hn, if_true]
              exact ⟨hst.1, RunLe.trans hst.2 (RunLe.insert st.run name _)⟩
            · simp only [hn, if_false]
              refine foldl_pres
                (P := fun st : LoopSt =>
                  (∀ n ∈ st.dispatched, n = name ∨ lookupA run n = none) ∧
                    RunLe run st.run)
                ?_ st hst
              intro st2 comp _ hst2
              by_cases he2 : st2.err.isSome
              · simpa [he2] using hst2
              · by_cases hc : comp.1 = req
                · simp only [he2, hc, if_false, if_true, Bool.false_eq_true]
                  cases hv : verify_stage comp.2 with
                  | inl errors => simpa [he2, hc, hv] using hst2
                  | inr rstage =>
                    simp only [he2, hc, hv, if_false, if_true,
                      Bool.false_eq_true]
                    unfold recLift
                    constructor
                    · intro n hnmem
                      simp only [List.mem_append] at hnmem
                      rcases hnmem with hnmem | hnmem
                      · exact hst2.1 n hnmem
                      · rcases ih req rstage st2.run n hnmem with rfl | hnone
                        · exact Or.inr hreq0
                        · exact Or.inr (RunLe.none_of_none hst2.2 hnone)
                    · exact RunLe.trans hst2.2
                        (call_stage_run_inv w defn env fuel req rstage st2.run).1
                · simpa [he2, hc] using hst2
    intro n hn
    rcases finishStage_dispatched w name stage (stagePre env name stage)
      (reqLoop (call_stage w defn env fuel) w defn name stage
        (initSt run (stagePre env name stage))) with hd | hd
    · rw [show call_stage w defn env (fuel + 1) name stage run
          = callStageBody w defn env (call_stage w defn env fuel) name stage run
          from rfl, callStageBody] at hn
      rw [hd] at hn
      exact hloop.1 n hn
    · rw [show call_stage w defn env (fuel + 1) name stage run
          = callStageBody w defn env (call_stage w defn env fuel) name stage run
          from rfl, callStageBody] at hn
      rw [hd] at hn
      rcases List.mem_append.mp hn with hn | hn
      · exact hloop.1 n hn
      · rcases List.mem_singleton.mp hn with rfl
        exact Or.inl rfl

/-- Every stage body recorded in the definition under name `n` fails
validation (lacks `match`). -/
def InvalidName (defn : Defn) (n : String) : Prop :=
  ∀ s, (n, s) ∈ defn → s.smatch = none

theorem verify_inr_smatch {s s' : Stage} (h : verify_stage s = Sum.inr s') :
    s.smatch ≠ none := by
  intro hm
  simp [verify_stage, hm] at h

/-- A name all of whose definition entries are invalid is never written:
resolution frames are opened only for stages that passed validation, and
every run-state write is keyed by some frame's name. -/
theorem call_stage_no_write_invalid (w : World) (defn : Defn) (env : String)
    (n : String) (hInv : InvalidName defn n) :
    ∀ (fuel : Nat) (name : String) (stage : Stage) (run : OverRun),
      n ≠ name → lookupA run n = none →
      lookupA (call_stage w defn env fuel name stage run).run n = none := by
  intro fuel
  induction fuel with
  | zero =>
    intro name stage run _ h0
    simpa [call_stage] using h0
  | succ fuel ih =>
    intro name stage run hne h0
    have hloop : lookupA (reqLoop (call_stage w defn env fuel) w defn name stage
        (initSt run (stagePre env name stage))).run n = none := by
      unfold reqLoop
      cases hr : stage.require with
      | none => exact h0
      | some reqs =>
        refine foldl_pres
          (P := fun st : LoopSt => lookupA st.run n = none) ?_ _ h0
        intro st req _ hst
        unfold reqStep
        by_cases he : st.err.isSome
        · simpa [he] using hst
        · simp only [he, if_false, Bool.false_eq_true]
          cases hl : lookupA st.run req with
          | some outcome =>
            rw [checkCached_lookup_ne w name req n hne outcome st]
            exact hst
          | none =>
            by_cases hn : ¬ (namesOf defn).contains req
            · simp only [hn, if_true]
              show lookupA (insertA st.run name [(noReqTag, mkNoReq req)]) n
                  = none
              rw [lookupA_insertA_ne st.run name n _ hne]
              exact hst
            · simp only [hn, if_false]
              refine foldl_pres
                (P := fun st : LoopSt => lookupA st.run n = none) ?_ st hst
              intro st2 comp hcm hst2
              by_cases he2 : st2.err.isSome
              · simpa [he2] using hst2
              · by_cases hc : comp.1 = req
                · simp only [he2, hc, if_false, if_true, Bool.false_eq_true]
                  cases hv : verify_stage comp.2 with
                  | inl errors => simpa [he2, hc, hv] using hst2
                  | inr rstage =>
                    simp only [he2, hc, hv, if_false, if_true,
                      Bool.false_eq_true]
                    unfold recLift
                    have hreqn : n ≠ req := by
                      intro heq
                      have hc1 : comp.1 = n := by rw [hc, ← heq]
                      have hmem : (n, comp.2) ∈ defn := by
                        rw [← hc1]
                        exact hcm
                      exact verify_inr_smatch hv (hInv comp.2 hmem)
                    exact ih req rstage st2.run hreqn hst2
                · simpa [he2, hc] using hst2
    rcases finishStage_run w name stage (stagePre env name stage)
      (reqLoop (call_stage w defn env fuel) w defn name stage
        (initSt run (stagePre env name stage))) with hd | ⟨ret, hd⟩
    · rw [show call_stage w defn env (fuel + 1) name stage run
          = callStageBody w defn env (call_stage w defn env fuel) name stage run
          from rfl, callStageBody, hd]
      exact hloop
    · rw [show call_stage w defn env (fuel + 1) name stage run
          = callStageBody w defn env (call_stage w defn env fuel) name stage run
          from rfl, callStageBody, hd,
        lookupA_insertA_ne _ name n ret hne]
      exact hloop

/-! ### Driver-level invariants -/

/-- The streaming driver's run state keeps duplicate-free keys. -/
theorem stages_iter_run_nodup (w : World) (defn : Defn) (env : String)
    (fuel : Nat) : (keysA (stages_iter w defn env fuel).run).Nodup := by
  unfold stages_iter
  refine foldl_pres
    (P := fun acc : IterRes => (keysA acc.run).Nodup) ?_ _ (by simp [keysA])
  intro acc comp _ hacc
  unfold iterStep
  by_cases he : acc.err.isSome
  · simpa [he] using hacc
  · by_cases hl : (lookupA acc.run comp.1).isSome
    · simpa [he, hl] using hacc
    · simp only [he, hl, if_false, Bool.false_eq_true]
      cases hv : verify_stage comp.2 with
      | inl errors => simpa [hv] using hacc
      | inr rstage =>
        simp only [hv]
        exact (call_stage_run_inv w defn env fuel comp.1 comp.2 acc.run).2 hacc

/-- A stage name whose definition entries are all invalid gets no entry
from a full streaming pass. -/
theorem stages_iter_no_entry_invalid (w : World) (defn : Defn) (env : String)
    (fuel : Nat) (n : String) (hInv : InvalidName defn n) :
    lookupA (stages_iter w defn env fuel).run n = none := by
  unfold stages_iter
  refine foldl_pres
    (P := fun acc : IterRes => lookupA acc.run n = none) ?_ _ (by simp [lookupA])
  intro acc comp hcm hacc
  unfold iterStep
  by_cases he : acc.err.isSome
  · simpa [he] using hacc
  · by_cases hl : (lookupA acc.run comp.1).isSome
    · simpa [he, hl] using hacc
    · simp only [he, hl, if_false, Bool.false_eq_true]
      cases hv : verify_stage comp.2 with
      | inl errors => simpa [hv] using hacc
      | inr rstage =>
        simp only [hv]
        have hne : n ≠ comp.1 := by
          intro heq
          have hmem : (n, comp.2) ∈ defn := by
            rw [heq]
            exact hcm
          exact verify_inr_smatch hv (hInv comp.2 hmem)
        exact call_stage_no_write_invalid w defn env n hInv fuel comp.1 comp.2
          acc.run hne hacc

/-! ### Branch behaviour of the prelude and of `finishStage` -/

theorem stagePre_err_none (env name : String) (stage : Stage)
    (hfn : stage.func ≠ some (PyFun.pydict [])) :
    (stagePre env name stage).err = none := by
  unfold stagePre
  cases hs : stage.sls with
  | some l => rfl
  | none =>
    cases hf : stage.func with
    | none => rfl
    | some fd =>
      cases fd with
      | pynone => rfl
      | pystr s => rfl
      | pyother t => rfl
      | pydict l =>
        cases l with
        | nil => exact absurd hf hfn
        | cons hd tl => rfl

theorem finishStage_own_true (w : World) (name : String) (stage : Stage)
    (p : StagePre) (st1 : LoopSt) (h1 : st1.err = none)
    (h2 : st1.reqFail = []) (m : MatchExpr) (hm : stage.smatch = some m) :
    (finishStage w name stage p st1).ownDispatched = true := by
  unfold finishStage
  rw [h1, h2, hm]
  simp only [Option.isSome_none, Bool.false_eq_true, if_false,
    List.isEmpty_nil, not_true, if_true, not_false_iff]
  cases hfr : foldRecords [] (w.dispatch (stage_list w m) p.fn p.arg stage.batch) with
  | error e => simp [hfr]
  | ok ret => simp [hfr]

theorem finishStage_reqfail (w : World) (name : String) (stage : Stage)
    (p : StagePre) (st1 : LoopSt) (h1 : st1.err = none)
    (h2 : st1.reqFail.isEmpty = false) :
    (finishStage w name stage p st1).ownDispatched = false ∧
    (finishStage w name stage p st1).run = st1.run ∧
    (finishStage w name stage p st1).dispatched = st1.dispatched ∧
    (finishStage w name stage p st1).reqFailN = st1.reqFail ∧
    (finishStage w name stage p st1).events
      = st1.events ++ [Event.out name st1.reqFail] ∧
    (finishStage w name stage p st1).err = none := by
  unfold finishStage
  rw [h1]
  simp [h2]

/-! ### Resolution with a single resolved requisite -/

theorem call_stage_single_req (w : World) (defn : Defn) (env : String)
    (fuel : Nat) (name r : String) (stage : Stage) (run : OverRun)
    (outcome : Outcome)
    (hreq : stage.require = some [r])
    (hrun : lookupA run r = some outcome)
    (hfn : stage.func ≠ some (PyFun.pydict [])) :
    call_stage w defn env (fuel + 1) name stage run
      = finishStage w name stage (stagePre env name stage)
          (checkCached w name r outcome (initSt run (stagePre env name stage))) := by
  have hpre : (stagePre env name stage).err = none :=
    stagePre_err_none env name stage hfn
  have hcs : call_stage w defn env (fuel + 1) name stage run
      = finishStage w name stage (stagePre env name stage)
          (reqLoop (call_stage w defn env fuel) w defn name stage
            (initSt run (stagePre env name stage))) := rfl
  rw [hcs]
  unfold reqLoop
  rw [hreq]
  simp only [List.foldl_cons, List.foldl_nil]
  unfold reqStep
  have h0 : (initSt run (stagePre env name stage)).err.isSome = false := by
    simp [initSt, hpre]
  have h1 : lookupA (initSt run (stagePre env name stage)).run r
      = some outcome := hrun
  rw [h0, h1]
  simp

/-- Claim C2: for a stage whose declared requisite is already resolved with
an outcome recorded in the plain function form, the stage's own work is
dispatched iff every target of that outcome has returnCode 0 and success
true; when some target fails the check, the stage's outcome becomes the
retcode-254 requisite failure naming a failing target, and the stage's
work is not dispatched. -/
theorem plain_requisite_gates_dispatch
    (w : World) (defn : Defn) (env : String) (fuel : Nat)
    (name r : String) (stage : Stage) (run : OverRun) (outcome : Outcome)
    (hreq : stage.require = some [r])
    (hrun : lookupA run r = some outcome)
    (hplain : ∀ p ∈ outcome,
      p.2.fn ≠ "state.highstate" ∧ p.2.fn ≠ "state.sls")
    (hfn : stage.func ≠ some (PyFun.pydict []))
    (hmatch : stage.smatch.isSome) :
    ((call_stage w defn env (fuel + 1) name stage run).ownDispatched = true
      ↔ ∀ p ∈ outcome, p.2.retcode = 0 ∧ p.2.success = true) ∧
    ((¬ ∀ p ∈ outcome, p.2.retcode = 0 ∧ p.2.success = true) →
      (call_stage w defn env (fuel + 1) name stage run).ownDispatched = false ∧
      ∃ p ∈ outcome, ¬ (p.2.retcode = 0 ∧ p.2.success = true) ∧
        lookupA (call_stage w defn env (fuel + 1) name stage run).run name
          = some [(reqFailTag, mkReqFail r p.1)]) := by
  have hcs := call_stage_single_req w defn env fuel name r stage run outcome
    hreq hrun hfn
  have hpre : (stagePre env name stage).err = none :=
    stagePre_err_none env name stage hfn
  have hok_iff : ∀ p : String × RunEntry, p ∈ outcome →
      (reqMinionOk w p.1 p.2 = true
        ↔ (p.2.retcode = 0 ∧ p.2.success = true)) := by
    intro p hp
    rcases hplain p hp with ⟨hh, hs⟩
    unfold reqMinionOk
    rw [if_neg hh, if_neg hs]
    simp [Bool.and_eq_true]
  obtain ⟨m, hm⟩ := Option.isSome_iff_exists.mp hmatch
  by_cases hex : ∃ p ∈ outcome, reqMinionOk w p.1 p.2 = false
  · rcases checkCached_ex_fail w name r outcome
      (initSt run (stagePre env name stage)) hex with
      ⟨p, hpme, hpf, hrunEq, hrfEq⟩
    have hfail : ¬ (p.2.retcode = 0 ∧ p.2.success = true) := by
      intro hc
      rw [← hok_iff p hpme] at hc
      rw [hc] at hpf
      cases hpf
    have herr : (checkCached w name r outcome
        (initSt run (stagePre env name stage))).err = none := by
      rcases checkCached_untouched w name r outcome
        (initSt run (stagePre env name stage)) with ⟨_, _, he⟩
      rw [he]
      simpa [initSt] using hpre
    have hrf_ne : (checkCached w name r outcome
        (initSt run (stagePre env name stage))).reqFail.isEmpty = false := by
      rw [hrfEq]
      simp [initSt, insertA]
    rcases finishStage_reqfail w name stage (stagePre env name stage) _
      herr hrf_ne with ⟨hown, hrun2, _, _, _, _⟩
    constructor
    · rw [hcs, hown]
      simp only [Bool.false_eq_true, false_iff]
      intro hall
      exact hfail (hall p hpme)
    · intro _
      refine ⟨by rw [hcs, hown], p, hpme, hfail, ?_⟩
      rw [hcs, hrun2, hrunEq]
      have hinit : (initSt run (stagePre env name stage)).run = run := rfl
      rw [hinit]
      exact lookupA_insertA_self run name _
  · have hall : ∀ p ∈ outcome, reqMinionOk w p.1 p.2 = true := by
      intro p hp
      cases h : reqMinionOk w p.1 p.2 with
      | false => exact absurd ⟨p, hp, h⟩ hex
      | true => rfl
    have hall' : ∀ p ∈ outcome, p.2.retcode = 0 ∧ p.2.success = true :=
      fun p hp => (hok_iff p hp).mp (hall p hp)
    have hst1 : checkCached w name r outcome
        (initSt run (stagePre env name stage))
        = initSt run (stagePre env name stage) :=
      checkCached_all_ok w name r outcome _ hall
    have hown : (call_stage w defn env (fuel + 1) name stage run).ownDispatched
        = true := by
      rw [hcs, hst1]
      exact finishStage_own_true w name stage (stagePre env name stage) _
        (by simpa [initSt] using hpre) rfl m hm
    exact ⟨by rw [hown]; simp only [true_iff]; exact hall',
      fun hcon => absurd hall' hcon⟩

/-- Claim C3: a stage declaring a requisite name that is neither a key of
Run State nor a stage name of the Definition records the retcode-253
"Requisite X not found" failure (success false) under its own name, and
its own work is never dispatched. -/
theorem missing_requisite_records_253
    (w : World) (defn : Defn) (env : String) (fuel : Nat)
    (name x : String) (stage : Stage) (run : OverRun)
    (hreq : stage.require = some [x])
    (hrun : lookupA run x = none)
    (hnames : (namesOf defn).contains x = false)
    (hfn : stage.func ≠ some (PyFun.pydict [])) :
    (call_stage w defn env (fuel + 1) name stage run).ownDispatched = false ∧
    (call_stage w defn env (fuel + 1) name stage run).dispatched = [] ∧
    lookupA (call_stage w defn env (fuel + 1) name stage run).run name
      = some [(noReqTag, mkNoReq x)] ∧
    (mkNoReq x).retcode = 253 ∧ (mkNoReq x).success = false ∧
    (mkNoReq x).ret
      = RetVal.failRet false ("Requisite " ++ x ++ " not found")
          "Requisite Failure" 0 := by
  have hpre : (stagePre env name stage).err = none :=
    stagePre_err_none env name stage hfn
  have hcs : call_stage w defn env (fuel + 1) name stage run
      = finishStage w name stage (stagePre env name stage)
          (reqLoop (call_stage w defn env fuel) w defn name stage
            (initSt run (stagePre env name stage))) := rfl
  have hloop : reqLoop (call_stage w defn env fuel) w defn name stage
      (initSt run (stagePre env name stage))
      = { run := insertA run name [(noReqTag, mkNoReq x)],
          reqFail := [(noReqTag, mkNoReq x)],
          events := (stagePre env name stage).evs,
          dispatched := [], writes := [name], err := none } := by
    unfold reqLoop
    rw [hreq]
    simp only [List.foldl_cons, List.foldl_nil]
    unfold reqStep
    have h0 : (initSt run (stagePre env name stage)).err.isSome = false := by
      simp [initSt, hpre]
    rw [h0]
    have h1 : lookupA (initSt run (stagePre env name stage)).run x
        = none := hrun
    simp only [Bool.false_eq_true, if_false, h1, hnames]
    simp [initSt, hpre, updateA, insertA]
  rw [hcs, hloop]
  rcases finishStage_reqfail w name stage (stagePre env name stage)
    { run := insertA run name [(noReqTag, mkNoReq x)],
      reqFail := [(noReqTag, mkNoReq x)],
      events := (stagePre env name stage).evs,
      dispatched := [], writes := [name], err := none } rfl rfl with
    ⟨hown, hrun2, hdisp, _, _, _⟩
  refine ⟨hown, hdisp, ?_, rfl, rfl, rfl⟩
  rw [hrun2]
  exact lookupA_insertA_self run name _

/-- Whatever `finishStage` does, it reports exactly the loop's
accumulated `req_fail[name]`. -/
theorem finishStage_reqFailN (w : World) (name : String) (stage : Stage)
    (p : StagePre) (st1 : LoopSt) :
    (finishStage w name stage p st1).reqFailN = st1.reqFail := by
  unfold finishStage
  by_cases h1 : st1.err.isSome
  · simp [h1]
  · by_cases h2 : st1.reqFail.isEmpty
    · simp only [h1, h2, Bool.false_eq_true, if_false, not_true, if_true,
        not_false_iff]
      cases hm : stage.smatch with
      | none => simp
      | some m =>
        simp only []
        cases hfr : foldRecords [] (w.dispatch (stage_list w m) p.fn p.arg stage.batch) with
        | error e => simp [hfr]
        | ok ret => simp [hfr]
    · simp [h1, h2]

/-- `finishStage` never dispatches the stage's own work when a requisite
failure is pending. -/
theorem finishStage_own_false_of_reqfail (w : World) (name : String)
    (stage : Stage) (p : StagePre) (st1 : LoopSt)
    (h : (finishStage w name stage p st1).reqFailN ≠ []) :
    (finishStage w name stage p st1).ownDispatched = false := by
  rw [finishStage_reqFailN] at h
  by_cases h1 : st1.err.isSome
  · unfold finishStage
    simp [h1]
  · have h2 : st1.reqFail.isEmpty = false := by
      cases hc : st1.reqFail with
      | nil => exact absurd hc h
      | cons hd tl => rfl
    have herr : st1.err = none := by
      cases hc : st1.err with
      | none => rfl
      | some e => rw [hc] at h1; exact absurd rfl h1
    exact (finishStage_reqfail w name stage p st1 herr h2).1

/-- Claim C4 (amended): once a RequisiteFailure has been recorded for the
stage, the stage's own work is not dispatched and the failure record is
what resolution reports; the requisite loop, however, does not
short-circuit — the remaining requisites of the declared list are still
processed one by one from the accumulated state. -/
theorem reqfail_blocks_own_dispatch_but_loop_continues :
    (∀ (w : World) (defn : Defn) (env : String) (fuel : Nat)
        (name : String) (stage : Stage) (run : OverRun),
      (call_stage w defn env fuel name stage run).reqFailN ≠ [] →
      (call_stage w defn env fuel name stage run).ownDispatched = false) ∧
    (∀ (rec : String → Stage → OverRun → CallRes) (w : World) (defn : Defn)
        (name r : String) (rest : List String) (st : LoopSt),
      (r :: rest).foldl (fun st req => reqStep rec w defn name req st) st
        = rest.foldl (fun st req => reqStep rec w defn name req st)
            (reqStep rec w defn name r st)) := by
  constructor
  · intro w defn env fuel name stage run h
    cases fuel with
    | zero => simp [call_stage]
    | succ fuel => exact finishStage_own_false_of_reqfail w name stage _ _ h
  · intro rec w defn name r rest st
    rfl

/-- Claim C7 (amended): run-state entries are never removed during a pass
and the run state remains a proper mapping (duplicate-free keys), both
for a single resolution and for a whole streaming pass; a single entry
may however be assigned several times within one stage's resolution. -/
theorem run_state_keys_monotone_and_nodup :
    (∀ (w : World) (defn : Defn) (env : String) (fuel : Nat)
        (name : String) (stage : Stage) (run : OverRun),
      (keysA run).Nodup →
      (keysA (call_stage w defn env fuel name stage run).run).Nodup ∧
      ∀ k ∈ keysA run,
        k ∈ keysA (call_stage w defn env fuel name stage run).run) ∧
    (∀ (w : World) (defn : Defn) (env : String) (fuel : Nat),
      (keysA (stages_iter w defn env fuel).run).Nodup) := by
  constructor
  · intro w defn env fuel name stage run hnd
    rcases call_stage_run_inv w defn env fuel name stage run with ⟨hle, hnodup⟩
    exact ⟨hnodup hnd, fun k hk => hle k hk⟩
  · exact stages_iter_run_nodup

/-- Claim C8: resolution is idempotent per stage name within a pass: a
stage name already recorded in Run State when resolution starts is never
dispatched again; a requisite found in Run State is handled purely by
reading its cached outcome (no dispatch, no event); and the driver skips
a top-level stage whose name is already recorded. -/
theorem resolved_stage_never_redispatched :
    (∀ (w : World) (defn : Defn) (env : String) (fuel : Nat)
        (name : String) (stage : Stage) (run : OverRun),
      lookupA run name = none →
      ∀ n ∈ (call_stage w defn env fuel name stage run).dispatched,
        lookupA run n = none) ∧
    (∀ (rec : String → Stage → OverRun → CallRes) (w : World) (defn : Defn)
        (name req : String) (st : LoopSt) (outcome : Outcome),
      st.err = none → lookupA st.run req = some outcome →
      (reqStep rec w defn name req st).dispatched = st.dispatched ∧
      (reqStep rec w defn name req st).events = st.events) ∧
    (∀ (w : World) (defn : Defn) (env : String) (fuel : Nat)
        (acc : IterRes) (comp : String × Stage),
      (lookupA acc.run comp.1).isSome →
      iterStep w defn env fuel acc comp = acc) := by
  refine ⟨?_, ?_, ?_⟩
  · intro w defn env fuel name stage run hname n hn
    rcases call_stage_dispatched_fresh w defn env fuel name stage run n hn with
      rfl | h
    · exact hname
    · exact h
  · intro rec w defn name req st outcome herr hl
    unfold reqStep
    have h0 : st.err.isSome = false := by rw [herr]; rfl
    rw [h0, hl]
    simp only [Bool.false_eq_true, if_false]
    rcases checkCached_untouched w name req outcome st with ⟨he, hd, _⟩
    exact ⟨hd, he⟩
  · intro w defn env fuel acc comp hl
    unfold iterStep
    by_cases he : acc.err.isSome
    · simp [he]
    · simp [he, hl]

/-- Claim C9: validation returns a non-empty error list exactly when the
stage lacks `match`, returns the stage unchanged otherwise, and a stage
of the definition that fails validation contributes no Run State entry
to a streaming pass. -/
theorem invalid_stage_no_entry :
    (∀ s : Stage,
      (∃ es, verify_stage s = Sum.inl es ∧ es ≠ []) ↔ s.smatch = none) ∧
    (∀ s : Stage, s.smatch ≠ none → verify_stage s = Sum.inr s) ∧
    (∀ (w : World) (defn : Defn) (env : String) (fuel : Nat)
        (name : String) (stage : Stage),
      (keysA defn).Nodup → (name, stage) ∈ defn → stage.smatch = none →
      lookupA (stages_iter w defn env fuel).run name = none) := by
  refine ⟨?_, ?_, ?_⟩
  · intro s
    constructor
    · rintro ⟨es, hes, _⟩
      cases hsm : s.smatch with
      | none => rfl
      | some m =>
        rw [show verify_stage s = Sum.inr s from by simp [verify_stage, hsm]]
          at hes
        cases hes
    · intro hsm
      exact ⟨["No \"match\" argument in stage."], by simp [verify_stage, hsm],
        by simp⟩
  · intro s hsm
    cases hsm' : s.smatch with
    | none => exact absurd hsm' hsm
    | some m => simp [verify_stage, hsm']
  · intro w defn env fuel name stage hnd hmem hsm
    have hInv : InvalidName defn name := by
      intro s hs
      rw [lookup_unique_of_nodup hnd hs hmem]
      exact hsm
    exact stages_iter_no_entry_invalid w defn env fuel name hInv

/-- Claim C10: a raw adapter record is skipped only when it carries none
of `'id'`, `'return'`, `'fun'`; a record with all three (and no
`'retcode'`/`'success'`) folds with the defaults 0 and true; and the
whole fold succeeds exactly when every non-skipped record carries all
three of `'id'`, `'return'`, `'fun'`. -/
theorem fold_requires_all_three_keys :
    (∀ (acc : Outcome) (m : RawRecord),
      m.rid = none → m.rret = none → m.rfn = none →
      foldRecord acc m = Except.ok acc) ∧
    (∀ (acc : Outcome) (i : String) (r : RetVal) (f : String),
      foldRecord acc
          { rid := some i, rret := some r, rfn := some f,
            rretcode := none, rsuccess := none }
        = Except.ok (insertA acc i
            { ret := r, fn := f, retcode := 0, success := true })) ∧
    (∀ (l : List RawRecord) (acc : Outcome),
      (∃ r, foldRecords acc l = Except.ok r)
        ↔ ∀ m ∈ l,
            (m.rid = none ∧ m.rret = none ∧ m.rfn = none)
            ∨ (m.rid.isSome ∧ m.rret.isSome ∧ m.rfn.isSome)) := by
  refine ⟨?_, ?_, ?_⟩
  · intro acc m h1 h2 h3
    unfold foldRecord
    rw [if_pos ⟨by rw [h1]; rfl, by rw [h2]; rfl, by rw [h3]; rfl⟩]
  · intro acc i r f
    rfl
  · intro l
    induction l with
    | nil =>
      intro acc
      simp [foldRecords]
    | cons m rest ih =>
      intro acc
      by_cases hskip : m.rid.isNone ∧ m.rret.isNone ∧ m.rfn.isNone
      · have hfr : foldRecord acc m = Except.ok acc := by
          unfold foldRecord
          rw [if_pos hskip]
        have hstep : foldRecords acc (m :: rest) = foldRecords acc rest := by
          show (match foldRecord acc m with
                | Except.ok r => foldRecords r rest
                | Except.error e => Except.error e)
              = foldRecords acc rest
          rw [hfr]
        rw [hstep]
        constructor
        · intro hok p hp
          rcases List.mem_cons.mp hp with rfl | hp2
          · exact Or.inl ⟨Option.isNone_iff_eq_none.mp hskip.1,
              Option.isNone_iff_eq_none.mp hskip.2.1,
              Option.isNone_iff_eq_none.mp hskip.2.2⟩
          · exact (ih acc).mp hok p hp2
        · intro hall
          exact (ih acc).mpr (fun p hp => hall p (List.mem_cons_of_mem m hp))
      · by_cases hall3 : m.rid.isSome ∧ m.rret.isSome ∧ m.rfn.isSome
        · obtain ⟨i, hri⟩ := Option.isSome_iff_exists.mp hall3.1
          obtain ⟨r, hrr⟩ := Option.isSome_iff_exists.mp hall3.2.1
          obtain ⟨f, hrf⟩ := Option.isSome_iff_exists.mp hall3.2.2
          have hfr : foldRecord acc m
              = Except.ok (insertA acc i
                  { ret := r, fn := f, retcode := m.rretcode.getD 0,
                    success := m.rsuccess.getD true }) := by
            unfold foldRecord
            rw [if_neg hskip, hri, hrr, hrf]
          have hstep : foldRecords acc (m :: rest)
              = foldRecords (insertA acc i
                  { ret := r, fn := f, retcode := m.rretcode.getD 0,
                    success := m.rsuccess.getD true }) rest := by
            show (match foldRecord acc m with
                  | Except.ok r2 => foldRecords r2 rest
                  | Except.error e => Except.error e)
                = foldRecords (insertA acc i
                    { ret := r, fn := f, retcode := m.rretcode.getD 0,
                      success := m.rsuccess.getD true }) rest
            rw [hfr]
          rw [hstep]
          constructor
          · intro hok p hp
            rcases List.mem_cons.mp hp with rfl | hp2
            · exact Or.inr hall3
            · exact (ih _).mp hok p hp2
          · intro hall
            exact (ih _).mpr (fun p hp => hall p (List.mem_cons_of_mem m hp))
        · have hfr : foldRecord acc m = Except.error PyErr.keyError := by
            unfold foldRecord
            rw [if_neg hskip]
            rcases hri : m.rid with _ | i <;>
              rcases hrr : m.rret with _ | r <;>
              rcases hrf : m.rfn with _ | f <;>
              first
                | rfl
                | exact absurd ⟨by rw [hri]; rfl, by rw [hrr]; rfl,
                    by rw [hrf]; rfl⟩ hall3
          have hstep : foldRecords acc (m :: rest)
              = Except.error PyErr.keyError := by
            show (match foldRecord acc m with
                  | Except.ok r2 => foldRecords r2 rest
                  | Except.error e => Except.error e)
                = Except.error PyErr.keyError
            rw [hfr]
          rw [hstep]
          constructor
          · rintro ⟨r2, hr2⟩
            cases hr2
          · intro hall
            rcases hall m (List.mem_cons_self m rest) with ⟨h1, h2, h3⟩ | h3
            · exact absurd ⟨by rw [h1]; rfl, by rw [h2]; rfl,
                by rw [h3]; rfl⟩ hskip
            · exact absurd h3 hall3

/-! ### Concrete executions -/

/-- A dispatch boundary that answers every call with one successful
record for minion `n1`. -/
def okWorld : World :=
  { checkStateResult := fun _ _ => true,
    stageListOf := fun _ => ["n1"],
    dispatch := fun _ _ _ _ =>
      [{ rid := some "n1", rret := some (.ext 7), rfn := some "cmd.run",
         rretcode := some 0, rsuccess := some true }] }

/-- A dispatch boundary whose two minions both fail. -/
def failWorld : World :=
  { checkStateResult := fun _ _ => true,
    stageListOf := fun _ => ["n1", "n2"],
    dispatch := fun _ _ _ _ =>
      [{ rid := some "n1", rret := some (.ext 1), rfn := some "cmd.run",
         rretcode := some 1, rsuccess := some false },
       { rid := some "n2", rret := some (.ext 2), rfn := some "cmd.run",
         rretcode := some 1, rsuccess := some false }] }

/-- `{'match': '*', 'function': 'cmd.run'}`. -/
def fnStage : Stage :=
  { smatch := some (.str "*"), func := some (.pystr "cmd.run") }

/-- `{'match': '*', 'require': ['a']}`. -/
def reqAStage : Stage :=
  { smatch := some (.str "*"), require := some ["a"] }

/-- `{'a': fnStage, 'b': reqAStage}` after lexicographic sorting. -/
def abDefn : Defn := [("a", fnStage), ("b", reqAStage)]

/-- `{'match': '*', 'require': ['x', 'c']}` — `x` is undefined. -/
def missingThenCStage : Stage :=
  { smatch := some (.str "*"), require := some ["x", "c"] }

/-- A plain highstate stage. -/
def plainCStage : Stage := { smatch := some (.str "*") }

/-- A definition where `b` requires undefined `x` and then unresolved `c`. -/
def bcDefn : Defn := [("b", missingThenCStage), ("c", plainCStage)]

/-- `{'match': '*', 'function': None}`. -/
def noneFnStage : Stage :=
  { smatch := some (.str "*"), func := some .pynone }

/-- `{'match': '*', 'function': {}}`. -/
def emptyDictFnStage : Stage :=
  { smatch := some (.str "*"), func := some (.pydict []) }

/-- `{'match': '*', 'require': ['b']}`. -/
def reqBStage : Stage :=
  { smatch := some (.str "*"), require := some ["b"] }

/-- A stage body with no `match` key: fails validation. -/
def noMatchStage : Stage := {}

/-- `a` requires `b`; `b` lacks `match`. -/
def invalidReqDefn : Defn := [("a", reqBStage), ("b", noMatchStage)]

/-- `{'match': '*', 'require': ['x']}`. -/
def xReqStage : Stage :=
  { smatch := some (.str "*"), require := some ["x"] }

/-- A recorded plain-function outcome for stage `a` whose single target
failed. -/
def failedAOutcome : Outcome :=
  [("n1", { ret := .ext 1, fn := "cmd.run", retcode := 1, success := false })]

/-- A run state in which `a` is resolved with a failing outcome. -/
def runWithFailedA : OverRun := [("a", failedAOutcome)]

/-- An adapter record carrying none of `'id'`, `'return'`, `'fun'`. -/
def emptyRec : RawRecord := {}

/-! ### The claims settled on concrete executions -/

/-- Claim C1 is contradicted by the code: the eager driver `stages`
resets Run State and then merely constructs each stage's generator
without ever iterating it, so `call_stage` bodies never run and Run State
is empty after every eager pass — while the streaming driver on the same
one-stage definition does record the stage's outcome. -/
theorem eager_driver_executes_nothing :
    (∀ (w : World) (defn : Defn) (env : String), stages w defn env = []) ∧
    lookupA (stages_iter okWorld [("a", fnStage)] "base" 2).run "a"
      = some [("n1",
          { ret := .ext 7, fn := "cmd.run", retcode := 0, success := true })] := by
  constructor
  · intro w defn env
    unfold stages
    induction defn with
    | nil => rfl
    | cons hd tl ih =>
      rw [List.foldl_cons, ite_self]
      exact ih
  · decide

/-- Claim C4 is false of the code at a concrete input: with declared
requisites `['x', 'c']` where `x` is undefined, the retcode-253 failure
is recorded under the stage's name, yet resolution does not
short-circuit — the later not-yet-resolved requisite `c` is still
recursively resolved and dispatched. -/
theorem reqfail_short_circuit_cex :
    lookupA (call_stage okWorld bcDefn "base" 3 "b" missingThenCStage []).run "b"
      = some [(noReqTag, mkNoReq "x")] ∧
    (call_stage okWorld bcDefn "base" 3 "b" missingThenCStage []).dispatched
      = ["c"] ∧
    (call_stage okWorld bcDefn "base" 3 "b" missingThenCStage []).ownDispatched
      = false := by
  refine ⟨by decide, by decide, by decide⟩

/-- Claim C5 is contradicted by the code: with `function: None` the stage
yields the empty outcome (twice, once per fall-through arm) and then
still proceeds — requisite processing runs and `state.highstate` is
dispatched; with `function: {}` the resumed generator raises IndexError
at `fun_d.keys()[0]`. -/
theorem empty_function_spec_still_runs :
    flattenList (call_stage okWorld [] "base" 1 "z" noneFnStage []).events
      = [("z", Sum.inl []), ("z", Sum.inl []),
         ("z", Sum.inl [("n1",
           { ret := .ext 7, fn := "cmd.run", retcode := 0, success := true })])] ∧
    (call_stage okWorld [] "base" 1 "z" noneFnStage []).dispatched = ["z"] ∧
    (call_stage okWorld [] "base" 1 "z" emptyDictFnStage []).err
      = some PyErr.indexError := by
  refine ⟨by decide, by decide, by decide⟩

/-- Claim C6 is contradicted by the code: when recursive resolution emits
a validation-error node for an invalid requisite stage, the streaming
driver yields the stage reference and then raises TypeError while
building the final dict (it indexes the error list with a string), so
the walk does not handle all three node shapes without error. -/
theorem stream_flatten_crashes_on_validation_event :
    (stages_iter okWorld invalidReqDefn "base" 4).err
      = some PyErr.typeError ∧
    (stages_iter okWorld invalidReqDefn "base" 4).items
      = [StreamItem.plan invalidReqDefn,
         StreamItem.stageRef (some ("b", noMatchStage))] := by
  refine ⟨by decide, by decide⟩

/-- Claim C7 is false of the code at a concrete input: in one streaming
pass where stage `a` resolves with two failing targets and stage `b`
requires `a`, the entry under `b` is assigned twice (once per failing
minion), not exactly once. -/
theorem run_entry_written_twice :
    (stages_iter failWorld abDefn "base" 4).writes = ["a", "b", "b"] ∧
    (stages_iter failWorld abDefn "base" 4).err = none ∧
    ((stages_iter failWorld abDefn "base" 4).writes.count "b") = 2 := by
  refine ⟨by decide, by decide, by decide⟩

/-! ### Witnesses -/

/-- Witness: the gate theorem instantiated at a run state where requisite
`a` is resolved with one failing target. -/
theorem plain_requisite_gates_dispatch_witness :
    ((call_stage okWorld [] "base" 1 "b" reqAStage runWithFailedA).ownDispatched
        = true
      ↔ ∀ p ∈ failedAOutcome, p.2.retcode = 0 ∧ p.2.success = true) ∧
    ((¬ ∀ p ∈ failedAOutcome, p.2.retcode = 0 ∧ p.2.success = true) →
      (call_stage okWorld [] "base" 1 "b" reqAStage runWithFailedA).ownDispatched
        = false ∧
      ∃ p ∈ failedAOutcome, ¬ (p.2.retcode = 0 ∧ p.2.success = true) ∧
        lookupA (call_stage okWorld [] "base" 1 "b" reqAStage runWithFailedA).run "b"
          = some [(reqFailTag, mkReqFail "a" p.1)]) :=
  plain_requisite_gates_dispatch okWorld [] "base" 0 "b" "a" reqAStage
    runWithFailedA failedAOutcome (by decide) (by decide) (by decide)
    (by decide) (by decide)

/-- Witness: the missing-requisite theorem instantiated at a stage
requiring the undefined name `x` over the empty definition. -/
theorem missing_requisite_records_253_witness :
    (call_stage okWorld [] "base" 1 "b" xReqStage []).ownDispatched = false ∧
    (call_stage okWorld [] "base" 1 "b" xReqStage []).dispatched = [] ∧
    lookupA (call_stage okWorld [] "base" 1 "b" xReqStage []).run "b"
      = some [(noReqTag, mkNoReq "x")] ∧
    (mkNoReq "x").retcode = 253 ∧ (mkNoReq "x").success = false ∧
    (mkNoReq "x").ret
      = RetVal.failRet false ("Requisite " ++ "x" ++ " not found")
          "Requisite Failure" 0 :=
  missing_requisite_records_253 okWorld [] "base" 0 "b" "x" xReqStage []
    (by decide) (by decide) (by decide) (by decide)

/-- Witness: the amended C4 theorem instantiated where the recorded
failure set is non-empty. -/
theorem reqfail_blocks_own_dispatch_witness :
    (call_stage okWorld bcDefn "base" 4 "b" missingThenCStage []).reqFailN
      ≠ [] ∧
    (call_stage okWorld bcDefn "base" 4 "b" missingThenCStage []).ownDispatched
      = false :=
  ⟨by decide,
    reqfail_blocks_own_dispatch_but_loop_continues.1 okWorld bcDefn "base" 4
      "b" missingThenCStage [] (by decide)⟩

/-- Witness: the amended C7 theorem instantiated at a duplicate-free
run state. -/
theorem run_state_keys_monotone_and_nodup_witness :
    (keysA runWithFailedA).Nodup ∧
    ((keysA (call_stage okWorld abDefn "base" 3 "b" reqAStage
        runWithFailedA).run).Nodup ∧
     ∀ k ∈ keysA runWithFailedA,
       k ∈ keysA (call_stage okWorld abDefn "base" 3 "b" reqAStage
          runWithFailedA).run) :=
  ⟨by decide,
    run_state_keys_monotone_and_nodup.1 okWorld abDefn "base" 3 "b" reqAStage
      runWithFailedA (by decide)⟩

/-- Witness: the C8 theorem instantiated at an empty run state. -/
theorem resolved_stage_never_redispatched_witness :
    lookupA ([] : OverRun) "b" = none ∧
    ∀ n ∈ (call_stage okWorld abDefn "base" 3 "b" reqAStage []).dispatched,
      lookupA ([] : OverRun) n = none :=
  ⟨by decide,
    resolved_stage_never_redispatched.1 okWorld abDefn "base" 3 "b" reqAStage
      [] (by decide)⟩

/-- Witness: the C9 theorem instantiated at the definition whose stage
`b` lacks `match`. -/
theorem invalid_stage_no_entry_witness :
    (keysA invalidReqDefn).Nodup ∧ ("b", noMatchStage) ∈ invalidReqDefn ∧
    noMatchStage.smatch = none ∧
    lookupA (stages_iter okWorld invalidReqDefn "base" 4).run "b" = none :=
  ⟨by decide, by decide, by decide,
    invalid_stage_no_entry.2.2 okWorld invalidReqDefn "base" 4 "b"
      noMatchStage (by decide) (by decide) (by decide)⟩

/-- Witness: the C10 skip clause instantiated at a record with none of
the three keys. -/
theorem fold_requires_all_three_keys_witness :
    (emptyRec.rid = none ∧ emptyRec.rret = none ∧ emptyRec.rfn = none) ∧
    foldRecord [] emptyRec = Except.ok [] :=
  ⟨⟨rfl, rfl, rfl⟩,
    fold_requires_all_three_keys.1 [] emptyRec rfl rfl rfl⟩

end Overstate
